import Mathlib

/-!
# Verification of the climate-valuation numeric core

Shallow embedding of the pure numeric transforms of the repository
(carbon intensity, winsorization, tercile classification, valuation
premium, implied carbon price, implied decarbonization rate), together
with theorems settling the specification's claims about them.

JavaScript numbers that may be `undefined`/`NaN` are modelled as
`Option ℚ` (`none` = NaN/undefined); ordinary finite numbers are `ℚ`.
`Math.min`/`Math.max` propagate NaN, comparisons with NaN are false,
and reading an array out of bounds yields `undefined`; the `js*`
helpers below reproduce exactly that behaviour.  JS `Map` objects are
modelled as association lists in insertion order with last-set-wins
lookup, which coincides with `Map.set`/`Map.get` semantics.
-/

/-- JS `Math.min`: NaN (here `none`) absorbs. -/
def jsMin : Option ℚ → Option ℚ → Option ℚ
  | some a, some b => some (min a b)
  | _, _ => none

/-- JS `Math.max`: NaN (here `none`) absorbs. -/
def jsMax : Option ℚ → Option ℚ → Option ℚ
  | some a, some b => some (max a b)
  | _, _ => none

/-- JS addition: NaN absorbs. -/
def jsAdd : Option ℚ → Option ℚ → Option ℚ
  | some a, some b => some (a + b)
  | _, _ => none

/-- JS subtraction: NaN absorbs. -/
def jsSub : Option ℚ → Option ℚ → Option ℚ
  | some a, some b => some (a - b)
  | _, _ => none

/-- JS multiplication: NaN absorbs. -/
def jsMul : Option ℚ → Option ℚ → Option ℚ
  | some a, some b => some (a * b)
  | _, _ => none

/-- JS division (the sources only divide where the denominator is
guarded to be positive, so the `x / 0 = Infinity` case never arises):
NaN absorbs. -/
def jsDiv : Option ℚ → Option ℚ → Option ℚ
  | some a, some b => some (a / b)
  | _, _ => none

/-- JS `a > b`: any comparison involving NaN is false. -/
def jsGtB : Option ℚ → Option ℚ → Bool
  | some a, some b => decide (b < a)
  | _, _ => false

/-- JS array indexing `l[i]` with a possibly negative or out-of-range
integer index: `undefined` (modelled `none`) when out of range. -/
def jsGet (l : List ℚ) (i : ℤ) : Option ℚ :=
  if 0 ≤ i then l[i.toNat]? else none

/-- JS `arr.reduce((sum, v) => sum + v, 0)` over possibly-NaN entries. -/
def jsSum (l : List (Option ℚ)) : Option ℚ :=
  l.foldl jsAdd (some 0)

/-- Last-set-wins lookup in an insertion-ordered association list:
the value JS `Map.get` returns, `none` when the key is absent. -/
def mapGet {α : Type} (m : List (ℕ × α)) (k : ℕ) : Option α :=
  (m.reverse.find? (fun p => p.1 = k)).map Prod.snd

/-- JS `Map.has`. -/
def mapHas {α : Type} (m : List (ℕ × α)) (k : ℕ) : Bool :=
  (m.map Prod.fst).contains k

/-- A row of the `companies` table (src/drizzle/schema.ts), restricted
to the fields the numeric core reads.  `id` is a JS number whose
truthiness the code tests, so `0` plays the role of a falsy id. -/
structure Company where
  id : ℕ
  geography : Option String
  sector : Option String
  industry : Option String
  sdgAlignmentScore : Option ℚ
  emissionTarget2050 : Option ℚ
deriving DecidableEq

/-- A row of the `time_series` table (src/drizzle/schema.ts); `date` is
the epoch-millisecond value `Date.getTime()` returns. -/
structure TimeSeries where
  companyId : ℕ
  date : ℤ
  totalReturnIndex : Option ℚ
  marketCap : Option ℚ
  priceEarnings : Option ℚ
  scope1Emissions : Option ℚ
  scope2Emissions : Option ℚ
  scope3Emissions : Option ℚ
  netProfit : Option ℚ
deriving DecidableEq

/-- `CompanyWithTimeSeries` of the analyzer interfaces. -/
structure CompanyWithTimeSeries where
  company : Company
  timeSeries : List TimeSeries
deriving DecidableEq

/-- A pair of portfolio aggregates as consumed by the valuation
engines (`avgCarbonIntensity`/`avgPeRatio` of `PortfolioMetrics`). -/
structure Metrics where
  avgCarbonIntensity : ℚ
  avgPeRatio : ℚ

namespace PortfolioAnalyzer

/-- Embedding of `calculateCarbonIntensity`
(src/server/portfolioAnalyzer.ts): `null` when market cap is missing,
falsy (zero) or non-positive; otherwise emissions per million dollars
of market cap, with each missing scope defaulted to 0. -/
def calculateCarbonIntensity (scope1 scope2 scope3 marketCap : Option ℚ)
    (includeScope3 : Bool) : Option ℚ :=
  match marketCap with
  | none => none
  | some m =>
    if m ≤ 0 then none
    else
      let s1 := scope1.getD 0
      let s2 := scope2.getD 0
      let s3 := if includeScope3 then scope3.getD 0 else 0
      let totalEmissions := s1 + s2 + s3
      some (totalEmissions / (m / 1000000))

/-- Return type of `calculateValuationPremium`. -/
structure ValuationResult where
  valuationPremium : ℚ
  impliedCarbonPrice : ℚ

/-- Embedding of `calculateValuationPremium`
(src/server/portfolioAnalyzer.ts). -/
def calculateValuationPremium (climateMetrics baselineMetrics : Metrics) :
    ValuationResult :=
  let valuationPremium :=
    climateMetrics.avgPeRatio / baselineMetrics.avgPeRatio - 1
  let intensityDiff :=
    baselineMetrics.avgCarbonIntensity - climateMetrics.avgCarbonIntensity
  let impliedCarbonPrice :=
    if 0 < intensityDiff then
      valuationPremium * baselineMetrics.avgPeRatio / intensityDiff
    else 0
  { valuationPremium := valuationPremium
    impliedCarbonPrice := max 0 impliedCarbonPrice }

/-- Embedding of `calculateImpliedDecarbRate`
(src/server/portfolioAnalyzer.ts): piecewise-linear mapping from
implied carbon price to an annual decarbonization rate. -/
def calculateImpliedDecarbRate (impliedCarbonPrice : ℚ) : ℚ :=
  if impliedCarbonPrice ≤ 0 then 0
  else if impliedCarbonPrice ≤ 50 then impliedCarbonPrice / 50 * 0.02
  else if impliedCarbonPrice ≤ 100 then
    0.02 + (impliedCarbonPrice - 50) / 50 * 0.02
  else if impliedCarbonPrice ≤ 200 then
    0.04 + (impliedCarbonPrice - 100) / 100 * 0.03
  else min 0.07 (0.07 + (impliedCarbonPrice - 200) / 200 * 0.01)

end PortfolioAnalyzer

namespace PortfolioAnalyzerV2

/-- Embedding of `mapGeographyToRegion`
(src/server/portfolioAnalyzerV2.ts): static lookup from a raw
geography string to a macro-region. -/
def mapGeographyToRegion (geography : Option String) : String :=
  match geography with
  | none => "Unknown"
  | some s =>
    if s.isEmpty then "Unknown"
    else
      let geo := s.toUpper
      if geo ∈ ["US", "USA", "UNITED STATES", "CA", "CANADA", "MX", "MEXICO"] then
        "North America"
      else if geo ∈ ["UK", "GB", "UNITED KINGDOM", "DE", "GERMANY", "FR", "FRANCE",
          "IT", "ITALY", "ES", "SPAIN", "NL", "NETHERLANDS", "BE", "BELGIUM",
          "CH", "SWITZERLAND", "SE", "SWEDEN", "NO", "NORWAY", "DK", "DENMARK",
          "FI", "FINLAND", "AT", "AUSTRIA", "PL", "POLAND", "IE", "IRELAND",
          "PT", "PORTUGAL"] then
        "Europe"
      else if geo ∈ ["JP", "JAPAN", "CN", "CHINA", "KR", "KOREA", "SOUTH KOREA",
          "AU", "AUSTRALIA", "IN", "INDIA", "SG", "SINGAPORE", "HK", "HONG KONG",
          "TW", "TAIWAN", "TH", "THAILAND", "MY", "MALAYSIA", "ID", "INDONESIA",
          "NZ", "NEW ZEALAND"] then
        "Asia-Pacific"
      else if geo ∈ ["BR", "BRAZIL", "AR", "ARGENTINA", "CL", "CHILE",
          "CO", "COLOMBIA", "PE", "PERU"] then
        "Latin America"
      else if geo ∈ ["SA", "SAUDI ARABIA", "AE", "UAE", "IL", "ISRAEL",
          "ZA", "SOUTH AFRICA", "EG", "EGYPT", "NG", "NIGERIA", "KE", "KENYA"] then
        "Middle East & Africa"
      else "Other"

/-- Embedding of `calculateCarbonIntensity`
(src/server/portfolioAnalyzerV2.ts) — textually identical to the
portfolioAnalyzer.ts version. -/
def calculateCarbonIntensity (scope1 scope2 scope3 marketCap : Option ℚ)
    (includeScope3 : Bool) : Option ℚ :=
  match marketCap with
  | none => none
  | some m =>
    if m ≤ 0 then none
    else
      let s1 := scope1.getD 0
      let s2 := scope2.getD 0
      let s3 := if includeScope3 then scope3.getD 0 else 0
      let totalEmissions := s1 + s2 + s3
      some (totalEmissions / (m / 1000000))

/-- `sectorGranularity` of `AnalysisParameters`. -/
inductive SectorGranularity
  | sector
  | industry
deriving DecidableEq

/-- `methodology` of `AnalysisParameters`. -/
inductive Methodology
  | relative
  | dcf
deriving DecidableEq

/-- The configuration record `AnalysisParameters`
(src/server/portfolioAnalyzerV2.ts), restricted to the fields the
classifier reads. -/
structure AnalysisParameters where
  includeScope3 : Bool
  methodology : Methodology
  sectorGranularity : SectorGranularity

/-- The JS dynamic field access `company[sectorField]` where
`sectorField` is `"industry"` or `"sector"`. -/
def sectorFieldValue (g : SectorGranularity) (c : Company) : Option String :=
  match g with
  | .industry => c.industry
  | .sector => c.sector

/-- JS falsiness of a nullable string (`!sectorValue`): null or empty. -/
def isFalsyStr : Option String → Bool
  | none => true
  | some s => s.isEmpty

/-- The classification record returned by
`classifyCompaniesSectorRelative`. -/
structure ClassificationResult where
  lowCarbon : List ℕ
  decarbonizing : List ℕ
  solutions : List ℕ
  baseline : List ℕ

/-- JS `Map` key collection in first-insertion order: the sector keys
in the order the grouping loop first meets them. -/
def dedupKeepFirst (l : List String) : List String :=
  l.foldl (fun acc x => if x ∈ acc then acc else acc ++ [x]) []

/-- Per-sector step 1 of `classifyCompaniesSectorRelative`: ids of the
bottom tertile by carbon intensity within one sector group. -/
def lowCarbonOfSector (date : ℤ) (parameters : AnalysisParameters)
    (sectorCompanies : List CompanyWithTimeSeries) : List ℕ :=
  let intensities := sectorCompanies.filterMap (fun cwts =>
    match cwts.timeSeries.find? (fun t => t.date = date) with
    | none => none
    | some ts =>
      if cwts.company.id = 0 then none
      else
        match calculateCarbonIntensity ts.scope1Emissions ts.scope2Emissions
            ts.scope3Emissions ts.marketCap parameters.includeScope3 with
        | none => none
        | some intensity => some (cwts.company.id, intensity))
  let sorted := intensities.insertionSort (fun a b => a.2 ≤ b.2)
  let tertileSize := sorted.length / 3
  (sorted.take tertileSize).map Prod.fst

/-- Per-sector step 2 of `classifyCompaniesSectorRelative`: ids of the
bottom tertile by 2050 emission target (most negative first). -/
def decarbonizingOfSector (sectorCompanies : List CompanyWithTimeSeries) :
    List ℕ :=
  let targets := sectorCompanies.filterMap (fun cwts =>
    match cwts.company.emissionTarget2050 with
    | none => none
    | some target =>
      if cwts.company.id = 0 then none else some (cwts.company.id, target))
  let sorted := targets.insertionSort (fun a b => a.2 ≤ b.2)
  let tertileSize := sorted.length / 3
  (sorted.take tertileSize).map Prod.fst

/-- Per-sector step 3 of `classifyCompaniesSectorRelative`: ids of the
top tertile by SDG alignment score (highest first). -/
def solutionsOfSector (sectorCompanies : List CompanyWithTimeSeries) :
    List ℕ :=
  let scores := sectorCompanies.filterMap (fun cwts =>
    match cwts.company.sdgAlignmentScore with
    | none => none
    | some score =>
      if cwts.company.id = 0 then none else some (cwts.company.id, score))
  let sorted := scores.insertionSort (fun a b => b.2 ≤ a.2)
  let tertileSize := sorted.length / 3
  (sorted.take tertileSize).map Prod.fst

/-- Embedding of `classifyCompaniesSectorRelative`
(src/server/portfolioAnalyzerV2.ts): optional region filter, grouping
by the configured sector field (companies with a falsy field value are
skipped), three independent per-sector tertile classifications, and a
baseline of everything not classified. -/
def classifyCompaniesSectorRelative
    (companiesWithData : List CompanyWithTimeSeries) (date : ℤ)
    (parameters : AnalysisParameters) (geography : Option String) :
    ClassificationResult :=
  let filteredCompanies :=
    match geography with
    | none => companiesWithData
    | some g =>
      companiesWithData.filter
        (fun c => mapGeographyToRegion c.company.geography = g)
  let sectorKeys := dedupKeepFirst (filteredCompanies.filterMap (fun c =>
    let v := sectorFieldValue parameters.sectorGranularity c.company
    if isFalsyStr v then none else v))
  let groups := sectorKeys.map (fun k =>
    filteredCompanies.filter (fun c =>
      sectorFieldValue parameters.sectorGranularity c.company = some k))
  let lowCarbon := (groups.map (lowCarbonOfSector date parameters)).flatten
  let decarbonizing := (groups.map decarbonizingOfSector).flatten
  let solutions := (groups.map solutionsOfSector).flatten
  let climateCompanies := lowCarbon ++ decarbonizing ++ solutions
  let baseline := filteredCompanies.filterMap (fun c =>
    if c.company.id ≠ 0 ∧ c.company.id ∉ climateCompanies then
      some c.company.id
    else none)
  { lowCarbon := lowCarbon
    decarbonizing := decarbonizing
    solutions := solutions
    baseline := baseline }

/-- Return type of `calculateCarbonRiskDiscount`. -/
structure CarbonRiskResult where
  carbonRiskDiscount : ℚ
  impliedCarbonPrice : ℚ

/-- Embedding of `calculateCarbonRiskDiscount`
(src/server/portfolioAnalyzerV2.ts): same formulas as
`calculateValuationPremium`, under the inverted-discount reading. -/
def calculateCarbonRiskDiscount (climateMetrics baselineMetrics : Metrics) :
    CarbonRiskResult :=
  let carbonRiskDiscount :=
    climateMetrics.avgPeRatio / baselineMetrics.avgPeRatio - 1
  let intensityDiff :=
    baselineMetrics.avgCarbonIntensity - climateMetrics.avgCarbonIntensity
  let impliedCarbonPrice :=
    if 0 < intensityDiff then
      carbonRiskDiscount * baselineMetrics.avgPeRatio / intensityDiff
    else 0
  { carbonRiskDiscount := carbonRiskDiscount
    impliedCarbonPrice := max 0 impliedCarbonPrice }

/-- Embedding of `calculateImpliedDecarbRate`
(src/server/portfolioAnalyzerV2.ts) — textually identical to the
portfolioAnalyzer.ts version. -/
def calculateImpliedDecarbRate (impliedCarbonPrice : ℚ) : ℚ :=
  if impliedCarbonPrice ≤ 0 then 0
  else if impliedCarbonPrice ≤ 50 then impliedCarbonPrice / 50 * 0.02
  else if impliedCarbonPrice ≤ 100 then
    0.02 + (impliedCarbonPrice - 50) / 50 * 0.02
  else if impliedCarbonPrice ≤ 200 then
    0.04 + (impliedCarbonPrice - 100) / 100 * 0.03
  else min 0.07 (0.07 + (impliedCarbonPrice - 200) / 200 * 0.01)

end PortfolioAnalyzerV2

namespace TercileCalculator

/-- Embedding of the private `calculateCarbonIntensity` of the tercile
pre-computation module (src/unnamed/part_001): unlike the analyzer
version it returns `null` when total emissions are exactly zero, and it
divides by the raw market cap. -/
def calculateCarbonIntensity (scope1 scope2 scope3 marketCap : Option ℚ)
    (includeScope3 : Bool) : Option ℚ :=
  match marketCap with
  | none => none
  | some m =>
    if m ≤ 0 then none
    else
      let scope1Val := scope1.getD 0
      let scope2Val := scope2.getD 0
      let scope3Val := if includeScope3 then scope3.getD 0 else 0
      let totalEmissions := scope1Val + scope2Val + scope3Val
      if totalEmissions = 0 then none
      else some (totalEmissions / m)

/-- Tercile labels. -/
inductive Tercile
  | bottom
  | middle
  | top
deriving DecidableEq

/-- Embedding of `assignTerciles` (src/unnamed/part_001): sort the
entries with non-null intensity ascending, label the first
`floor(m/3)` "bottom", the last `floor(m/3)` "top", the rest "middle"
(the source sets bottom, then top, then middle), and give every
remaining company a `null` assignment.  The returned association list
is the JS `Map` in insertion order; look it up with `mapGet`. -/
def assignTerciles (intensities : List (ℕ × Option ℚ)) :
    List (ℕ × Option Tercile) :=
  let validIntensities :=
    intensities.filterMap (fun item => item.2.map (fun q => (item.1, q)))
  if validIntensities.length = 0 then
    intensities.map (fun item => (item.1, (none : Option Tercile)))
  else
    let sorted := validIntensities.insertionSort (fun a b => a.2 ≤ b.2)
    let tercileSize := sorted.length / 3
    let bottoms := (sorted.take tercileSize).map
      (fun it => (it.1, some Tercile.bottom))
    let tops := (sorted.drop (sorted.length - tercileSize)).map
      (fun it => (it.1, some Tercile.top))
    let middles := ((sorted.drop tercileSize).take
        (sorted.length - tercileSize - tercileSize)).map
      (fun it => (it.1, some Tercile.middle))
    let assignments := bottoms ++ tops ++ middles
    intensities.foldl (fun m item =>
      if mapHas m item.1 then m else m ++ [(item.1, (none : Option Tercile))])
      assignments

end TercileCalculator

namespace CarbonPriceCalculator

/-- Embedding of `winsorizeArray` (src/server/carbonPriceCalculator.ts):
sort a copy ascending, compute the two bound indices
(`floor(n·p/100)` and `floor(n·(100-p)/100) - 1`), clamp the lower
index below by `0` and the upper index above by `length - 1`, read the
bounds from the sorted copy (JS yields `undefined`, hence NaN outputs,
for an index that is still out of range), and clamp every value in
place. -/
def winsorizeArray (values : List ℚ) (percentile : ℚ) : List (Option ℚ) :=
  if values.length = 0 then []
  else
    let sorted := values.insertionSort (· ≤ ·)
    let lowerIdx : ℤ := ⌊(values.length : ℚ) * percentile / 100⌋
    let upperIdx : ℤ := ⌊(values.length : ℚ) * (100 - percentile) / 100⌋ - 1
    let lowerBound := jsGet sorted (max 0 lowerIdx)
    let upperBound := jsGet sorted (min ((sorted.length : ℤ) - 1) upperIdx)
    values.map fun v => jsMax lowerBound (jsMin upperBound (some v))

/-- Per-date result record of `calculateTotalBasedCarbonPrice`
(src/server/carbonPriceCalculator.ts). -/
structure CarbonPriceResult where
  topTercileEmissions : Option ℚ
  topTercileProfit : Option ℚ
  topTercileMarketCap : Option ℚ
  topTercilePeRatio : Option ℚ
  topTercileCompanyCount : ℕ
  bottomTercileEmissions : Option ℚ
  bottomTercileProfit : Option ℚ
  bottomTercileMarketCap : Option ℚ
  bottomTercilePeRatio : Option ℚ
  bottomTercileCompanyCount : ℕ
  impliedCarbonPrice : Option ℚ

/-- The row filter both tercile groups apply: non-null market cap and
net profit, and at least one of scope 1/2 present. -/
def isValidTs (ts : TimeSeries) : Bool :=
  ts.marketCap ≠ none ∧ ts.netProfit ≠ none ∧
    (ts.scope1Emissions ≠ none ∨ ts.scope2Emissions ≠ none)

/-- Total emissions of one row: scope1 + scope2 (+ scope3 when
included), nulls defaulting to 0 as in the source (`|| 0`). -/
def tsEmissions (includeScope3 : Bool) (ts : TimeSeries) : ℚ :=
  ts.scope1Emissions.getD 0 + ts.scope2Emissions.getD 0 +
    (if includeScope3 then ts.scope3Emissions.getD 0 else 0)

/-- The per-group aggregates the total-based engine computes. -/
structure GroupAggregates where
  totalMarketCap : Option ℚ
  totalProfit : Option ℚ
  totalEmissions : Option ℚ
  avgPe : Option ℚ
  peRatio : Option ℚ

/-- The aggregation block `calculateTotalBasedCarbonPrice` performs for
one (already filtered) tercile group: extract the four per-company
arrays, winsorize them when enabled and the group has more than 10
members (the source tests the market-cap array's length for all four),
then total market cap / profit / emissions, average the positive P/E
ratios, and form the aggregate P/E `totalMarketCap / totalProfit`
(0 when total profit is not positive). -/
def aggregateGroup (validTs : List TimeSeries)
    (includeScope3 winsorize : Bool) (winsorizePercentile : ℚ) :
    GroupAggregates :=
  let marketCaps := validTs.map (fun ts => ts.marketCap.getD 0)
  let profits := validTs.map (fun ts => ts.netProfit.getD 0)
  let emissions := validTs.map (tsEmissions includeScope3)
  let peRatios :=
    (validTs.map (fun ts => ts.priceEarnings.getD 0)).filter (fun pe => 0 < pe)
  let doWinsorize := winsorize ∧ 10 < marketCaps.length
  let marketCapsW :=
    if doWinsorize then winsorizeArray marketCaps winsorizePercentile
    else marketCaps.map some
  let profitsW :=
    if doWinsorize then winsorizeArray profits winsorizePercentile
    else profits.map some
  let emissionsW :=
    if doWinsorize then winsorizeArray emissions winsorizePercentile
    else emissions.map some
  let peRatiosW :=
    if doWinsorize then winsorizeArray peRatios winsorizePercentile
    else peRatios.map some
  let totalMarketCap := jsSum marketCapsW
  let totalProfit := jsSum profitsW
  let totalEmissions := jsSum emissionsW
  let avgPe :=
    if 0 < peRatiosW.length then jsDiv (jsSum peRatiosW) (some peRatiosW.length)
    else some 0
  let peRatio :=
    if jsGtB totalProfit (some 0) then jsDiv totalMarketCap totalProfit
    else some 0
  { totalMarketCap := totalMarketCap
    totalProfit := totalProfit
    totalEmissions := totalEmissions
    avgPe := avgPe
    peRatio := peRatio }

/-- The pure per-date body of `calculateTotalBasedCarbonPrice`
(src/server/carbonPriceCalculator.ts, one iteration of the date loop):
given the time-series rows of the top and bottom tercile companies at
one date, filter each group, skip the date (`none`) when either valid
group is empty, aggregate both groups, and form the implied carbon
price `((topProfit - topMarketCap/bottomPE) / topEmissions) * 1e6`
when `bottomPE > 0` and `topEmissions > 0`, else 0. -/
def computeDateCarbonPrice (topTs bottomTs : List TimeSeries)
    (includeScope3 winsorize : Bool) (winsorizePercentile : ℚ) :
    Option CarbonPriceResult :=
  let topValidTs := topTs.filter isValidTs
  if topValidTs.length = 0 then none
  else
    let bottomValidTs := bottomTs.filter isValidTs
    if bottomValidTs.length = 0 then none
    else
      let topAgg := aggregateGroup topValidTs includeScope3 winsorize
        winsorizePercentile
      let bottomAgg := aggregateGroup bottomValidTs includeScope3 winsorize
        winsorizePercentile
      let impliedCarbonPrice :=
        if jsGtB bottomAgg.peRatio (some 0) ∧ jsGtB topAgg.totalEmissions (some 0)
        then
          jsMul (jsDiv (jsSub topAgg.totalProfit
              (jsDiv topAgg.totalMarketCap bottomAgg.peRatio))
            topAgg.totalEmissions) (some 1000000)
        else some 0
      some
        { topTercileEmissions := topAgg.totalEmissions
          topTercileProfit := topAgg.totalProfit
          topTercileMarketCap := topAgg.totalMarketCap
          topTercilePeRatio := topAgg.peRatio
          topTercileCompanyCount := topValidTs.length
          bottomTercileEmissions := bottomAgg.totalEmissions
          bottomTercileProfit := bottomAgg.totalProfit
          bottomTercileMarketCap := bottomAgg.totalMarketCap
          bottomTercilePeRatio := bottomAgg.peRatio
          bottomTercileCompanyCount := bottomValidTs.length
          impliedCarbonPrice := impliedCarbonPrice }

end CarbonPriceCalculator

/-! ## Helper lemmas -/

/-- The decarbonization mapper is constant 0.07 above 200. -/
theorem decarbRate_of_gt200 (p : ℚ) (h : 200 < p) :
    PortfolioAnalyzer.calculateImpliedDecarbRate p = 0.07 := by
  unfold PortfolioAnalyzer.calculateImpliedDecarbRate
  rw [if_neg (by linarith), if_neg (by linarith), if_neg (by linarith),
    if_neg (by linarith)]
  exact min_eq_left (by linarith)

/-- The decarbonization mapper never exceeds 0.07. -/
theorem decarbRate_le_007 (p : ℚ) :
    PortfolioAnalyzer.calculateImpliedDecarbRate p ≤ 0.07 := by
  unfold PortfolioAnalyzer.calculateImpliedDecarbRate
  split_ifs with h1 h2 h3 h4
  · norm_num
  · rw [not_le] at h1; nlinarith
  · rw [not_le] at h2; linarith
  · rw [not_le] at h3; linarith
  · exact min_le_left _ _

/-- The decarbonization mapper is monotone on nonnegative prices. -/
theorem decarbRate_mono (p1 p2 : ℚ) (h0 : 0 ≤ p1) (h12 : p1 ≤ p2) :
    PortfolioAnalyzer.calculateImpliedDecarbRate p1 ≤
      PortfolioAnalyzer.calculateImpliedDecarbRate p2 := by
  rcases lt_or_le 200 p1 with h1 | h1
  · rw [decarbRate_of_gt200 p1 h1, decarbRate_of_gt200 p2 (by linarith)]
  · rcases lt_or_le 200 p2 with h2 | h2
    · rw [decarbRate_of_gt200 p2 h2]; exact decarbRate_le_007 p1
    · unfold PortfolioAnalyzer.calculateImpliedDecarbRate
      split_ifs <;> linarith

/-- Claim C6: the decarbonization rate mapper satisfies f(0)=0,
f(-10)=0, f(50)=0.02, f(100)=0.04, f(200)=0.07, f(500) ≤ 0.08, is
monotone non-decreasing on [0, ∞), never exceeds 0.07 (the min bound on
the final branch), and the portfolioAnalyzerV2.ts copy agrees with the
portfolioAnalyzer.ts one everywhere. -/
theorem claim_C6 :
    PortfolioAnalyzer.calculateImpliedDecarbRate 0 = 0 ∧
    PortfolioAnalyzer.calculateImpliedDecarbRate (-10) = 0 ∧
    PortfolioAnalyzer.calculateImpliedDecarbRate 50 = 0.02 ∧
    PortfolioAnalyzer.calculateImpliedDecarbRate 100 = 0.04 ∧
    PortfolioAnalyzer.calculateImpliedDecarbRate 200 = 0.07 ∧
    PortfolioAnalyzer.calculateImpliedDecarbRate 500 ≤ 0.08 ∧
    (∀ p1 p2 : ℚ, 0 ≤ p1 → p1 ≤ p2 →
      PortfolioAnalyzer.calculateImpliedDecarbRate p1 ≤
        PortfolioAnalyzer.calculateImpliedDecarbRate p2) ∧
    (∀ p : ℚ, PortfolioAnalyzer.calculateImpliedDecarbRate p ≤ 0.07) ∧
    (∀ p : ℚ, PortfolioAnalyzerV2.calculateImpliedDecarbRate p =
      PortfolioAnalyzer.calculateImpliedDecarbRate p) := by
  refine ⟨?_, ?_, ?_, ?_, ?_, ?_, decarbRate_mono, decarbRate_le_007,
    fun p => rfl⟩
  · unfold PortfolioAnalyzer.calculateImpliedDecarbRate; norm_num
  · unfold PortfolioAnalyzer.calculateImpliedDecarbRate; norm_num
  · unfold PortfolioAnalyzer.calculateImpliedDecarbRate; norm_num
  · unfold PortfolioAnalyzer.calculateImpliedDecarbRate; norm_num
  · unfold PortfolioAnalyzer.calculateImpliedDecarbRate; norm_num
  · calc PortfolioAnalyzer.calculateImpliedDecarbRate 500 ≤ 0.07 :=
        decarbRate_le_007 500
      _ ≤ 0.08 := by norm_num

/-- Witness for C6: the monotonicity component applied at 1 ≤ 2. -/
theorem claim_C6_witness :
    PortfolioAnalyzer.calculateImpliedDecarbRate 1 ≤
      PortfolioAnalyzer.calculateImpliedDecarbRate 2 :=
  claim_C6.2.2.2.2.2.2.1 1 2 (by norm_num) (by norm_num)

/-- Claim C2: `calculateCarbonIntensity` returns null exactly when the
market cap is null or ≤ 0, and otherwise
`(scope1 + scope2 + [scope3 if included]) / (marketCap / 1e6)`; with a
valid market cap and all scopes null or zero the result is `some 0`,
and the worked inputs give 150 (scopes 1+2) and 350 (with scope 3). -/
theorem claim_C2 :
    (∀ (s1 s2 s3 mc : Option ℚ) (inc : Bool),
      (PortfolioAnalyzer.calculateCarbonIntensity s1 s2 s3 mc inc = none ↔
        mc = none ∨ ∃ m, mc = some m ∧ m ≤ 0) ∧
      (∀ m : ℚ, mc = some m → 0 < m →
        PortfolioAnalyzer.calculateCarbonIntensity s1 s2 s3 mc inc =
          some ((s1.getD 0 + s2.getD 0 + (if inc then s3.getD 0 else 0)) /
            (m / 1000000)))) ∧
    PortfolioAnalyzer.calculateCarbonIntensity none none none
      (some 10000000) false = some 0 ∧
    PortfolioAnalyzer.calculateCarbonIntensity (some 0) (some 0) (some 0)
      (some 10000000) true = some 0 ∧
    PortfolioAnalyzer.calculateCarbonIntensity (some 1000) (some 500)
      (some 2000) (some 10000000) false = some 150 ∧
    PortfolioAnalyzer.calculateCarbonIntensity (some 1000) (some 500)
      (some 2000) (some 10000000) true = some 350 := by
  refine ⟨fun s1 s2 s3 mc inc => ⟨?_, ?_⟩, ?_, ?_, ?_, ?_⟩
  · cases mc with
    | none => simp [PortfolioAnalyzer.calculateCarbonIntensity]
    | some m =>
      unfold PortfolioAnalyzer.calculateCarbonIntensity
      by_cases h : m ≤ 0
      · simp [h]
      · simp [h]
  · intro m hm hpos
    subst hm
    have hm' : ¬ m ≤ 0 := not_le.mpr hpos
    cases inc <;>
      simp [PortfolioAnalyzer.calculateCarbonIntensity, hm']
  · unfold PortfolioAnalyzer.calculateCarbonIntensity; norm_num
  · unfold PortfolioAnalyzer.calculateCarbonIntensity; norm_num
  · unfold PortfolioAnalyzer.calculateCarbonIntensity; norm_num
  · unfold PortfolioAnalyzer.calculateCarbonIntensity; norm_num

/-- Witness for C2: the general formula component applied at a
concrete positive market cap. -/
theorem claim_C2_witness :
    PortfolioAnalyzer.calculateCarbonIntensity (some 1) (some 2) none
      (some 2000000) false = some (3 / 2) := by
  have h := (claim_C2.1 (some 1) (some 2) none (some 2000000) false).2
    2000000 rfl (by norm_num)
  rw [h]; norm_num

/-- Claim C9: the tercile pre-computation variant of
`calculateCarbonIntensity` (src/unnamed/part_001) returns null when the
total of the included scopes is exactly zero even for a positive market
cap, while the main calculator returns 0 there. -/
theorem claim_C9 :
    ∀ (s1 s2 s3 : Option ℚ) (inc : Bool) (m : ℚ), 0 < m →
      s1.getD 0 + s2.getD 0 + (if inc then s3.getD 0 else 0) = 0 →
      TercileCalculator.calculateCarbonIntensity s1 s2 s3 (some m) inc =
        none ∧
      PortfolioAnalyzer.calculateCarbonIntensity s1 s2 s3 (some m) inc =
        some 0 := by
  intro s1 s2 s3 inc m hm htot
  have hm' : ¬ m ≤ 0 := not_le.mpr hm
  constructor
  · unfold TercileCalculator.calculateCarbonIntensity
    simp only [hm', if_false, ite_false, if_neg hm']
    rw [htot]
    simp
  · unfold PortfolioAnalyzer.calculateCarbonIntensity
    simp only [if_neg hm']
    rw [htot]
    simp

/-- Witness for C9: all scopes null, market cap 5. -/
theorem claim_C9_witness :
    TercileCalculator.calculateCarbonIntensity none none none (some 5)
      true = none ∧
    PortfolioAnalyzer.calculateCarbonIntensity none none none (some 5)
      true = some 0 :=
  claim_C9 none none none true 5 (by norm_num) (by simp)

/-- Claim C5: the relative methodology returns premium
`(climatePE / baselinePE) - 1`, implied carbon price
`max 0 ((premium · baselinePE) / intensityDiff)` when the intensity
differential is positive and exactly 0 when it is ≤ 0; the V2
`calculateCarbonRiskDiscount` computes the same quantities; the worked
inputs {100, 22} vs {200, 20} give premium 0.1 and price 0.02. -/
theorem claim_C5 :
    (∀ climate baseline : Metrics, baseline.avgPeRatio ≠ 0 →
      (PortfolioAnalyzer.calculateValuationPremium climate
          baseline).valuationPremium =
        climate.avgPeRatio / baseline.avgPeRatio - 1 ∧
      (0 < baseline.avgCarbonIntensity - climate.avgCarbonIntensity →
        (PortfolioAnalyzer.calculateValuationPremium climate
            baseline).impliedCarbonPrice =
          max 0 ((climate.avgPeRatio / baseline.avgPeRatio - 1) *
            baseline.avgPeRatio /
            (baseline.avgCarbonIntensity - climate.avgCarbonIntensity))) ∧
      (baseline.avgCarbonIntensity - climate.avgCarbonIntensity ≤ 0 →
        (PortfolioAnalyzer.calculateValuationPremium climate
            baseline).impliedCarbonPrice = 0) ∧
      (PortfolioAnalyzerV2.calculateCarbonRiskDiscount climate
          baseline).carbonRiskDiscount =
        (PortfolioAnalyzer.calculateValuationPremium climate
          baseline).valuationPremium ∧
      (PortfolioAnalyzerV2.calculateCarbonRiskDiscount climate
          baseline).impliedCarbonPrice =
        (PortfolioAnalyzer.calculateValuationPremium climate
          baseline).impliedCarbonPrice) ∧
    (PortfolioAnalyzer.calculateValuationPremium ⟨100, 22⟩
      ⟨200, 20⟩).valuationPremium = 0.1 ∧
    (PortfolioAnalyzer.calculateValuationPremium ⟨100, 22⟩
      ⟨200, 20⟩).impliedCarbonPrice = 0.02 := by
  refine ⟨fun climate baseline hb => ⟨rfl, ?_, ?_, rfl, rfl⟩, ?_, ?_⟩
  · intro hd
    unfold PortfolioAnalyzer.calculateValuationPremium
    simp only [if_pos hd]
  · intro hd
    have h' : ¬ (0 < baseline.avgCarbonIntensity - climate.avgCarbonIntensity) :=
      not_lt.mpr hd
    simp [PortfolioAnalyzer.calculateValuationPremium, h']
  · unfold PortfolioAnalyzer.calculateValuationPremium
    norm_num
  · unfold PortfolioAnalyzer.calculateValuationPremium
    norm_num

/-- Witness for C5: the general component applied at the worked
metrics (baseline P/E 20 ≠ 0, intensity differential 100 > 0). -/
theorem claim_C5_witness :
    (PortfolioAnalyzer.calculateValuationPremium ⟨100, 22⟩
        ⟨200, 20⟩).impliedCarbonPrice =
      max 0 (((22 : ℚ) / 20 - 1) * 20 / (200 - 100)) :=
  ((claim_C5.1 ⟨100, 22⟩ ⟨200, 20⟩ (by norm_num)).2.1 (by norm_num))

/-- The list 1..10 of the first worked winsorization case. -/
def oneToTen : List ℚ := [1, 2, 3, 4, 5, 6, 7, 8, 9, 10]

/-- The list 1..100 of the second worked winsorization case. -/
def oneToHundred : List ℚ :=
  [1, 2, 3, 4, 5, 6, 7, 8, 9, 10, 11, 12, 13, 14, 15, 16, 17, 18, 19, 20, 21, 22, 23, 24, 25, 26, 27, 28, 29, 30, 31, 32, 33, 34, 35, 36, 37, 38, 39, 40, 41, 42, 43, 44, 45, 46, 47, 48, 49, 50, 51, 52, 53, 54, 55, 56, 57, 58, 59, 60, 61, 62, 63, 64, 65, 66, 67, 68, 69, 70, 71, 72, 73, 74, 75, 76, 77, 78, 79, 80, 81, 82, 83, 84, 85, 86, 87, 88, 89, 90, 91, 92, 93, 94, 95, 96, 97, 98, 99, 100]

/-- Evaluation form of `winsorizeArray` once the two floor indices are
known. -/
theorem winsorizeArray_eval (values : List ℚ) (p : ℚ) (li uf : ℤ)
    (h : ¬ values.length = 0)
    (hli : ⌊(values.length : ℚ) * p / 100⌋ = li)
    (huf : ⌊(values.length : ℚ) * (100 - p) / 100⌋ = uf) :
    CarbonPriceCalculator.winsorizeArray values p =
      values.map (fun v =>
        jsMax (jsGet (values.insertionSort (· ≤ ·)) (max 0 li))
          (jsMin (jsGet (values.insertionSort (· ≤ ·))
            (min ((values.length : ℤ) - 1) (uf - 1))) (some v))) := by
  unfold CarbonPriceCalculator.winsorizeArray
  rw [if_neg h]
  simp only [List.length_insertionSort, hli, huf]

/-- A successful `jsGet` certifies an in-range index. -/
theorem jsGet_eq_some {l : List ℚ} {i : ℤ} {x : ℚ}
    (h : jsGet l i = some x) : 0 ≤ i ∧ l[i.toNat]? = some x := by
  unfold jsGet at h
  split at h
  · exact ⟨by assumption, h⟩
  · exact absurd h (by simp)

/-- `jsGet` commutes with mapping a function over the list. -/
theorem jsGet_map (l : List ℚ) (f : ℚ → ℚ) (i : ℤ) :
    jsGet (l.map f) i = (jsGet l i).map f := by
  unfold jsGet
  split
  · rw [List.getElem?_map]
  · rfl

theorem jsMax_none_left (x : Option ℚ) : jsMax none x = none := rfl

theorem jsMax_some_none (a : ℚ) : jsMax (some a) none = none := rfl

theorem jsMin_none_left (x : Option ℚ) : jsMin none x = none := rfl

theorem jsMin_some_some (a b : ℚ) : jsMin (some a) (some b) = some (min a b) := rfl

theorem jsMax_some_some (a b : ℚ) : jsMax (some a) (some b) = some (max a b) := rfl

/-- Cancel `some` on both sides of a mapped-list equation. -/
theorem map_some_cancel {f : ℚ → ℚ} :
    ∀ values out : List ℚ,
      values.map (fun v => some (f v)) = out.map some →
      out = values.map f := by
  intro values
  induction values with
  | nil =>
    intro out h
    cases out with
    | nil => rfl
    | cons o os => simp at h
  | cons v vs ih =>
    intro out h
    cases out with
    | nil => simp at h
    | cons o os =>
      simp only [List.map_cons] at h ⊢
      injection h with h1 h2
      injection h1 with h1
      rw [ih os h2, h1]

/-- When a winsorization pass produces a NaN-free array, both bounds
were defined and the output is the pointwise clamp of the input. -/
theorem winsorize_bounds_of_map_some (values out : List ℚ) (LB UB : Option ℚ)
    (hne : values ≠ [])
    (h : values.map (fun v => jsMax LB (jsMin UB (some v))) = out.map some) :
    ∃ l u, LB = some l ∧ UB = some u ∧
      out = values.map (fun v => max l (min u v)) := by
  obtain ⟨v0, vs, rfl⟩ := List.exists_cons_of_ne_nil hne
  cases LB with
  | none =>
    exfalso
    cases out with
    | nil => simp at h
    | cons o os =>
      simp only [List.map_cons] at h
      injection h with h1 h2
      rw [jsMax_none_left] at h1
      exact Option.noConfusion h1
  | some l =>
    cases UB with
    | none =>
      exfalso
      cases out with
      | nil => simp at h
      | cons o os =>
        simp only [List.map_cons] at h
        injection h with h1 h2
        rw [jsMin_none_left, jsMax_some_none] at h1
        exact Option.noConfusion h1
    | some u =>
      refine ⟨l, u, rfl, rfl, ?_⟩
      have h' : (v0 :: vs).map (fun v => some (max l (min u v))) =
          out.map some := by
        rw [← h]; rfl
      exact map_some_cancel _ _ h'

/-- Claim C8: the winsorizer is idempotent — whenever a first
application yields an actual numeric array (`out.map some`, i.e. no
NaN entry), a second application with the same percentile returns that
array unchanged, because every value of the once-winsorized array
already lies within the bounds recomputed from it. -/
theorem claim_C8 (values out : List ℚ) (p : ℚ)
    (h : CarbonPriceCalculator.winsorizeArray values p = out.map some) :
    CarbonPriceCalculator.winsorizeArray out p = out.map some := by
  by_cases h0 : values.length = 0
  · have hv : values = [] := List.length_eq_zero.mp h0
    subst hv
    have hnil : out.map some = ([] : List (Option ℚ)) := by rw [← h]; rfl
    have hout : out = [] := List.map_eq_nil_iff.mp hnil
    subst hout
    rfl
  · rw [winsorizeArray_eval values p _ _ h0 rfl rfl] at h
    have hne : values ≠ [] := fun he => h0 (by rw [he]; rfl)
    obtain ⟨l, u, hLB, hUB, hout⟩ :=
      winsorize_bounds_of_map_some values out _ _ hne h
    have hlen : out.length = values.length := by rw [hout, List.length_map]
    have h0' : ¬ out.length = 0 := by rw [hlen]; exact h0
    rw [winsorizeArray_eval out p _ _ h0' rfl rfl]
    simp only [hlen]
    have hmono : Monotone (fun v => max l (min u v)) := by
      intro a b hab
      exact max_le_max le_rfl (min_le_min le_rfl hab)
    have hp1 : List.Perm
        ((values.insertionSort (· ≤ ·)).map (fun v => max l (min u v)))
        (values.map (fun v => max l (min u v))) :=
      (List.perm_insertionSort _ values).map _
    have hp2 : List.Perm (values.map (fun v => max l (min u v)))
        (out.insertionSort (· ≤ ·)) := by
      rw [← hout]; exact (List.perm_insertionSort _ out).symm
    have hsorted_map : List.Sorted (· ≤ ·)
        ((values.insertionSort (· ≤ ·)).map (fun v => max l (min u v))) :=
      List.Pairwise.map _ (fun a b hab => hmono hab)
        (List.sorted_insertionSort _ values)
    have heq : (values.insertionSort (· ≤ ·)).map (fun v => max l (min u v)) =
        out.insertionSort (· ≤ ·) :=
      List.eq_of_perm_of_sorted (hp1.trans hp2) hsorted_map
        (List.sorted_insertionSort _ out)
    rw [← heq, jsGet_map, jsGet_map, hLB, hUB]
    simp only [Option.map_some']
    have hcl : max l (min u l) = l := max_eq_left (min_le_right u l)
    have hcu : max l (min u u) = max l u := by rw [min_self]
    rw [hcl, hcu, hout, List.map_map, List.map_map]
    apply List.map_congr_left
    intro v hv
    show jsMax (some l) (jsMin (some (max l u)) (some (max l (min u v)))) =
      some (max l (min u v))
    rw [jsMin_some_some, jsMax_some_some]
    congr 1
    have h1 : max l (min u v) ≤ max l u :=
      max_le (le_max_left _ _) ((min_le_left u v).trans (le_max_right l u))
    rw [min_eq_right h1]
    exact max_eq_right (le_max_left l (min u v))

/-- Witness for C8: a first pass over [0, 5, 10, 100] at percentile 25
clamps to [5, 5, 10, 10]; a second pass leaves that unchanged. -/
theorem claim_C8_witness :
    CarbonPriceCalculator.winsorizeArray [0, 5, 10, 100] 25 =
      ([5, 5, 10, 10] : List ℚ).map some ∧
    CarbonPriceCalculator.winsorizeArray [5, 5, 10, 10] 25 =
      ([5, 5, 10, 10] : List ℚ).map some := by
  have h : CarbonPriceCalculator.winsorizeArray [0, 5, 10, 100] 25 =
      ([5, 5, 10, 10] : List ℚ).map some := by
    rw [winsorizeArray_eval _ 25 1 3 (by norm_num) (by norm_num) (by norm_num)]
    decide
  exact ⟨h, claim_C8 _ _ _ h⟩

/-- Counterexample to C1 as stated: on [1..100] at percentile 5 the
code maps the first element to 6, not to 5 (the lower bound is the
sorted value at index `floor(100·5/100) = 5`, which is 6). -/
theorem claim_C1_counterexample :
    (CarbonPriceCalculator.winsorizeArray oneToHundred 5)[0]? ≠
      some (some 5) := by
  have hlen : oneToHundred.length = 100 := rfl
  have h1 : ⌊(oneToHundred.length : ℚ) * 5 / 100⌋ = 5 := by
    rw [hlen]; norm_num
  have h2 : ⌊(oneToHundred.length : ℚ) * (100 - 5) / 100⌋ = 95 := by
    rw [hlen]; norm_num
  rw [winsorizeArray_eval oneToHundred 5 5 95 (by rw [hlen]; norm_num) h1 h2]
  decide

/-- Claim C1 (amended): for percentiles in [0, 50] and at least two
values, the bounds are the sorted values at indices
`floor(n·p/100)` and `floor(n·(100-p)/100) - 1` (both in range, so the
clamping is immaterial) and every value is clamped to them in place;
winsorizing [1..10] at 10/90 leaves index 4 (value 5) unchanged, and
winsorizing [1..100] at 5/95 maps 1 to 6, 2 to 6, 5 to 6, 100 to 95,
and leaves 51 unchanged. -/
theorem claim_C1_amended :
    (∀ (values : List ℚ) (p : ℚ), 0 ≤ p → p ≤ 50 → 2 ≤ values.length →
      ∃ lb ub,
        (values.insertionSort (· ≤ ·))[(⌊(values.length : ℚ) * p / 100⌋).toNat]? =
          some lb ∧
        (values.insertionSort (· ≤ ·))[(⌊(values.length : ℚ) * (100 - p) / 100⌋ - 1).toNat]? =
          some ub ∧
        CarbonPriceCalculator.winsorizeArray values p =
          values.map (fun v => some (max lb (min ub v)))) ∧
    (CarbonPriceCalculator.winsorizeArray oneToTen 10)[4]? = some (some 5) ∧
    (CarbonPriceCalculator.winsorizeArray oneToHundred 5)[0]? = some (some 6) ∧
    (CarbonPriceCalculator.winsorizeArray oneToHundred 5)[1]? = some (some 6) ∧
    (CarbonPriceCalculator.winsorizeArray oneToHundred 5)[4]? = some (some 6) ∧
    (CarbonPriceCalculator.winsorizeArray oneToHundred 5)[99]? = some (some 95) ∧
    (CarbonPriceCalculator.winsorizeArray oneToHundred 5)[50]? = some (some 51) := by
  have hlen10 : oneToTen.length = 10 := rfl
  have hlen100 : oneToHundred.length = 100 := rfl
  have hw10 := winsorizeArray_eval oneToTen 10 1 9
    (by rw [hlen10]; norm_num) (by rw [hlen10]; norm_num)
    (by rw [hlen10]; norm_num)
  have hw100 := winsorizeArray_eval oneToHundred 5 5 95
    (by rw [hlen100]; norm_num) (by rw [hlen100]; norm_num)
    (by rw [hlen100]; norm_num)
  refine ⟨?_, ?_, ?_, ?_, ?_, ?_, ?_⟩
  · intro values p hp0 hp50 hlen2
    have hn0 : (0 : ℚ) ≤ (values.length : ℚ) := Nat.cast_nonneg _
    have hnq : (2 : ℚ) ≤ (values.length : ℚ) := by exact_mod_cast hlen2
    have hli0 : 0 ≤ ⌊(values.length : ℚ) * p / 100⌋ :=
      Int.floor_nonneg.mpr (by positivity)
    have hlin : ⌊(values.length : ℚ) * p / 100⌋ < (values.length : ℤ) := by
      rw [Int.floor_lt]
      push_cast
      have h1 : (values.length : ℚ) * p ≤ (values.length : ℚ) * 50 :=
        mul_le_mul_of_nonneg_left hp50 hn0
      linarith
    have huf1 : 1 ≤ ⌊(values.length : ℚ) * (100 - p) / 100⌋ := by
      rw [Int.le_floor]
      push_cast
      have h2 : (50 : ℚ) ≤ 100 - p := by linarith
      have h3 : (2 : ℚ) * 50 ≤ (values.length : ℚ) * (100 - p) :=
        mul_le_mul hnq h2 (by norm_num) (by linarith)
      linarith
    have hufn : ⌊(values.length : ℚ) * (100 - p) / 100⌋ ≤ (values.length : ℤ) := by
      have h4 : (values.length : ℚ) * (100 - p) ≤ (values.length : ℚ) * 100 :=
        mul_le_mul_of_nonneg_left (by linarith) hn0
      calc ⌊(values.length : ℚ) * (100 - p) / 100⌋
          ≤ ⌊(values.length : ℚ)⌋ := Int.floor_le_floor (by linarith)
        _ = (values.length : ℤ) := Int.floor_natCast _
    have hliNat : (⌊(values.length : ℚ) * p / 100⌋).toNat <
        (values.insertionSort (· ≤ ·)).length := by
      rw [List.length_insertionSort]; omega
    have huiNat : (⌊(values.length : ℚ) * (100 - p) / 100⌋ - 1).toNat <
        (values.insertionSort (· ≤ ·)).length := by
      rw [List.length_insertionSort]; omega
    refine ⟨_, _, List.getElem?_eq_getElem hliNat,
      List.getElem?_eq_getElem huiNat, ?_⟩
    rw [winsorizeArray_eval values p _ _ (by omega) rfl rfl]
    rw [max_eq_right hli0, min_eq_right (by omega :
      ⌊(values.length : ℚ) * (100 - p) / 100⌋ - 1 ≤ (values.length : ℤ) - 1)]
    have g1 : jsGet (values.insertionSort (· ≤ ·))
        ⌊(values.length : ℚ) * p / 100⌋ =
        some ((values.insertionSort (· ≤ ·))[(⌊(values.length : ℚ) * p / 100⌋).toNat]) := by
      unfold jsGet
      rw [if_pos hli0, List.getElem?_eq_getElem hliNat]
    have g2 : jsGet (values.insertionSort (· ≤ ·))
        (⌊(values.length : ℚ) * (100 - p) / 100⌋ - 1) =
        some ((values.insertionSort (· ≤ ·))[(⌊(values.length : ℚ) * (100 - p) / 100⌋ - 1).toNat]) := by
      unfold jsGet
      rw [if_pos (by omega : (0:ℤ) ≤ ⌊(values.length : ℚ) * (100 - p) / 100⌋ - 1),
        List.getElem?_eq_getElem huiNat]
    rw [g1, g2]
    apply List.map_congr_left
    intro v hv
    rw [jsMin_some_some, jsMax_some_some]
  · rw [hw10]; decide
  · rw [hw100]; decide
  · rw [hw100]; decide
  · rw [hw100]; decide
  · rw [hw100]; decide
  · rw [hw100]; decide

/-- Witness for C1 (amended): the general component applied to [1..10]
at percentile 10. -/
theorem claim_C1_amended_witness :
    ∃ lb ub,
      (oneToTen.insertionSort (· ≤ ·))[(⌊(oneToTen.length : ℚ) * 10 / 100⌋).toNat]? =
        some lb ∧
      (oneToTen.insertionSort (· ≤ ·))[(⌊(oneToTen.length : ℚ) * (100 - 10) / 100⌋ - 1).toNat]? =
        some ub ∧
      CarbonPriceCalculator.winsorizeArray oneToTen 10 =
        oneToTen.map (fun v => some (max lb (min ub v))) :=
  claim_C1_amended.1 oneToTen 10 (by norm_num) (by norm_num) (by decide)

theorem mapHas_iff {α : Type} (m : List (ℕ × α)) (k : ℕ) :
    mapHas m k = true ↔ k ∈ m.map Prod.fst := by
  simp [mapHas, List.elem_iff]

theorem mapGet_append_right {α : Type} {m₁ m₂ : List (ℕ × α)} {k : ℕ}
    (h : k ∈ m₂.map Prod.fst) : mapGet (m₁ ++ m₂) k = mapGet m₂ k := by
  unfold mapGet
  rw [List.reverse_append, List.find?_append]
  obtain ⟨pair, hpair, hk⟩ := List.mem_map.mp h
  have hsome : (m₂.reverse.find? (fun p => p.1 = k)).isSome :=
    List.find?_isSome.mpr ⟨pair, List.mem_reverse.mpr hpair, by simp [hk]⟩
  obtain ⟨v, hv⟩ := Option.isSome_iff_exists.mp hsome
  rw [hv]
  rfl

theorem mapGet_append_left {α : Type} {m₁ m₂ : List (ℕ × α)} {k : ℕ}
    (h : k ∉ m₂.map Prod.fst) : mapGet (m₁ ++ m₂) k = mapGet m₁ k := by
  unfold mapGet
  rw [List.reverse_append, List.find?_append]
  have hnone : m₂.reverse.find? (fun p => p.1 = k) = none := by
    rw [List.find?_eq_none]
    intro x hx
    simp only [decide_eq_true_eq]
    intro hxk
    exact h (List.mem_map.mpr ⟨x, List.mem_reverse.mp hx, hxk⟩)
  rw [hnone, Option.none_or]

theorem mapGet_singleton {α : Type} (k : ℕ) (v : α) :
    mapGet [(k, v)] k = some v := by
  simp [mapGet]

/-- Entries with the same key in a key-nodup association list are
identical. -/
theorem eq_of_mem_of_nodup_keys {α β : Type} {l : List (α × β)} {a b : α × β}
    (hnd : (l.map Prod.fst).Nodup) (ha : a ∈ l) (hb : b ∈ l)
    (hab : a.1 = b.1) : a = b := by
  induction l with
  | nil => cases ha
  | cons hd tl ih =>
    rw [List.map_cons, List.nodup_cons] at hnd
    rcases List.mem_cons.mp ha with rfl | ha'
    · rcases List.mem_cons.mp hb with rfl | hb'
      · rfl
      · exact absurd (hab ▸ List.mem_map.mpr ⟨b, hb', rfl⟩) hnd.1
    · rcases List.mem_cons.mp hb with rfl | hb'
      · exact absurd (hab ▸ List.mem_map.mpr ⟨a, ha', rfl⟩) hnd.1
      · exact ih hnd.2 ha' hb'

theorem mapGet_eq_some_of_mem_nodup {α : Type} {m : List (ℕ × α)} {k : ℕ}
    {v : α} (hmem : (k, v) ∈ m) (hnd : (m.map Prod.fst).Nodup) :
    mapGet m k = some v := by
  obtain ⟨s, t, rfl⟩ := List.append_of_mem hmem
  have hnd' := hnd
  rw [List.map_append, List.map_cons, List.nodup_append] at hnd'
  have hkt : k ∉ t.map Prod.fst := by
    have := hnd'.2.1
    rw [List.nodup_cons] at this
    exact this.1
  have step1 : mapGet (s ++ (k, v) :: t) k = mapGet (s ++ [(k, v)]) k := by
    rw [show s ++ (k, v) :: t = (s ++ [(k, v)]) ++ t by simp]
    exact mapGet_append_left hkt
  rw [step1, mapGet_append_right (by simp), mapGet_singleton]

theorem mapGet_isSome_of_mem_keys {α : Type} {m : List (ℕ × α)} {k : ℕ}
    (h : k ∈ m.map Prod.fst) : (mapGet m k).isSome := by
  obtain ⟨pair, hpair, hk⟩ := List.mem_map.mp h
  unfold mapGet
  have hsome : (m.reverse.find? (fun p => p.1 = k)).isSome :=
    List.find?_isSome.mpr ⟨pair, List.mem_reverse.mpr hpair, by simp [hk]⟩
  obtain ⟨v, hv⟩ := Option.isSome_iff_exists.mp hsome
  rw [hv]
  rfl

namespace TercileCalculator

/-- The valid-intensity entries `assignTerciles` keeps. -/
def validIntensitiesOf (intensities : List (ℕ × Option ℚ)) : List (ℕ × ℚ) :=
  intensities.filterMap (fun item => item.2.map (fun q => (item.1, q)))

/-- The sorted valid entries of `assignTerciles`. -/
def sortedIntensitiesOf (intensities : List (ℕ × Option ℚ)) : List (ℕ × ℚ) :=
  (validIntensitiesOf intensities).insertionSort (fun a b => a.2 ≤ b.2)

/-- `floor(m/3)` of `assignTerciles`. -/
def tercileSizeOf (intensities : List (ℕ × Option ℚ)) : ℕ :=
  (sortedIntensitiesOf intensities).length / 3

/-- The bottom/top/middle assignments of `assignTerciles`, in the
order the source inserts them into its `Map`. -/
def assignedOf (intensities : List (ℕ × Option ℚ)) :
    List (ℕ × Option Tercile) :=
  ((sortedIntensitiesOf intensities).take (tercileSizeOf intensities)).map
      (fun it => (it.1, some Tercile.bottom)) ++
    ((sortedIntensitiesOf intensities).drop
        ((sortedIntensitiesOf intensities).length -
          tercileSizeOf intensities)).map
      (fun it => (it.1, some Tercile.top)) ++
    (((sortedIntensitiesOf intensities).drop (tercileSizeOf intensities)).take
        ((sortedIntensitiesOf intensities).length -
          tercileSizeOf intensities - tercileSizeOf intensities)).map
      (fun it => (it.1, some Tercile.middle))

/-- The final null-filling loop step of `assignTerciles`. -/
def tercStep (m : List (ℕ × Option Tercile)) (item : ℕ × Option ℚ) :
    List (ℕ × Option Tercile) :=
  if mapHas m item.1 then m else m ++ [(item.1, (none : Option Tercile))]

theorem assignTerciles_eq_of_valid_ne
    (intensities : List (ℕ × Option ℚ))
    (h : ¬ (validIntensitiesOf intensities).length = 0) :
    assignTerciles intensities =
      intensities.foldl tercStep (assignedOf intensities) := by
  simp only [assignTerciles]
  split
  · exact absurd (by assumption) h
  · rfl

theorem assignTerciles_eq_of_valid_eq
    (intensities : List (ℕ × Option ℚ))
    (h : (validIntensitiesOf intensities).length = 0) :
    assignTerciles intensities =
      intensities.map (fun item => (item.1, (none : Option Tercile))) := by
  simp only [assignTerciles]
  split
  · rfl
  · exact absurd h (by assumption)

end TercileCalculator

theorem tercile_fold_get_mem :
    ∀ (l : List (ℕ × Option ℚ)) (m : List (ℕ × Option TercileCalculator.Tercile))
      (k : ℕ), k ∈ m.map Prod.fst →
      mapGet (l.foldl TercileCalculator.tercStep m) k = mapGet m k := by
  intro l
  induction l with
  | nil => intro m k _; rfl
  | cons hd tl ih =>
    intro m k hk
    rw [List.foldl_cons]
    by_cases hh : mapHas m hd.1
    · rw [show TercileCalculator.tercStep m hd = m by
        unfold TercileCalculator.tercStep; rw [if_pos hh]]
      exact ih m k hk
    · rw [show TercileCalculator.tercStep m hd =
          m ++ [(hd.1, (none : Option TercileCalculator.Tercile))] by
        unfold TercileCalculator.tercStep; rw [if_neg hh]]
      have hne : k ≠ hd.1 := by
        intro he
        exact hh ((mapHas_iff m hd.1).mpr (he ▸ hk))
      have hk' : k ∈ (m ++ [(hd.1, (none : Option TercileCalculator.Tercile))]).map
          Prod.fst := by
        rw [List.map_append]
        exact List.mem_append_left _ hk
      rw [ih _ k hk', mapGet_append_left (by simpa using hne)]

theorem tercile_fold_get_new :
    ∀ (l : List (ℕ × Option ℚ)) (m : List (ℕ × Option TercileCalculator.Tercile))
      (k : ℕ), k ∉ m.map Prod.fst → k ∈ l.map Prod.fst →
      mapGet (l.foldl TercileCalculator.tercStep m) k = some none := by
  intro l
  induction l with
  | nil => intro m k _ hk; cases hk
  | cons hd tl ih =>
    intro m k hm hk
    rw [List.foldl_cons]
    by_cases he : hd.1 = k
    · have hh : ¬ mapHas m hd.1 = true := by
        rw [mapHas_iff, he]; exact hm
      rw [show TercileCalculator.tercStep m hd =
          m ++ [(hd.1, (none : Option TercileCalculator.Tercile))] by
        unfold TercileCalculator.tercStep; rw [if_neg hh]]
      have hkmem : k ∈ (m ++ [(hd.1, (none : Option TercileCalculator.Tercile))]).map
          Prod.fst := by
        rw [List.map_append]
        exact List.mem_append_right _ (by simp [he])
      rw [tercile_fold_get_mem tl _ k hkmem,
        mapGet_append_right (by simp [he]), he, mapGet_singleton]
    · have hk' : k ∈ tl.map Prod.fst := by
        rcases List.mem_map.mp hk with ⟨pair, hpair, hfst⟩
        rcases List.mem_cons.mp hpair with rfl | hpair'
        · exact absurd hfst he
        · exact List.mem_map.mpr ⟨pair, hpair', hfst⟩
      by_cases hh : mapHas m hd.1
      · rw [show TercileCalculator.tercStep m hd = m by
          unfold TercileCalculator.tercStep; rw [if_pos hh]]
        exact ih m k hm hk'
      · rw [show TercileCalculator.tercStep m hd =
            m ++ [(hd.1, (none : Option TercileCalculator.Tercile))] by
          unfold TercileCalculator.tercStep; rw [if_neg hh]]
        have hm' : k ∉ (m ++ [(hd.1, (none : Option TercileCalculator.Tercile))]).map
            Prod.fst := by
          rw [List.map_append]
          intro hcon
          rcases List.mem_append.mp hcon with h1 | h1
          · exact hm h1
          · simp at h1
            exact he h1.symm
        exact ih _ k hm' hk'

theorem getElem_mem_take {α : Type} (s : List α) (m i : ℕ) (hi : i < s.length)
    (him : i < m) : s[i] ∈ s.take m := by
  have h1 : i < (s.take m).length := by
    rw [List.length_take]; omega
  have h2 : (s.take m)[i] = s[i] := List.getElem_take ..
  rw [← h2]
  exact List.getElem_mem h1

theorem getElem_mem_drop {α : Type} (s : List α) (m i : ℕ) (hi : i < s.length)
    (him : m ≤ i) : s[i] ∈ s.drop m := by
  have h1 : i - m < (s.drop m).length := by
    rw [List.length_drop]; omega
  have h3 : m + (i - m) = i := by omega
  have h2 : (s.drop m)[i - m] = s[i] := by
    rw [List.getElem_drop]
    simp only [h3]
  rw [← h2]
  exact List.getElem_mem h1

theorem getElem_mem_drop_take {α : Type} (s : List α) (k j i : ℕ)
    (hi : i < s.length) (h1 : k ≤ i) (h2 : i - k < j) :
    s[i] ∈ (s.drop k).take j := by
  have hlen : i - k < (s.drop k).length := by
    rw [List.length_drop]; omega
  have he : (s.drop k)[i - k] = s[i] := by
    rw [List.getElem_drop]
    simp only [show k + (i - k) = i by omega]
  rw [← he]
  exact getElem_mem_take _ _ _ hlen h2

theorem valid_keys_sublist (l : List (ℕ × Option ℚ)) :
    ((TercileCalculator.validIntensitiesOf l).map Prod.fst).Sublist
      (l.map Prod.fst) := by
  induction l with
  | nil => simp [TercileCalculator.validIntensitiesOf]
  | cons hd tl ih =>
    cases h2 : hd.2 with
    | none =>
      have he : TercileCalculator.validIntensitiesOf (hd :: tl) =
          TercileCalculator.validIntensitiesOf tl := by
        simp [TercileCalculator.validIntensitiesOf, List.filterMap_cons, h2]
      rw [he, List.map_cons]
      exact List.Sublist.cons _ ih
    | some q =>
      have he : TercileCalculator.validIntensitiesOf (hd :: tl) =
          (hd.1, q) :: TercileCalculator.validIntensitiesOf tl := by
        simp [TercileCalculator.validIntensitiesOf, List.filterMap_cons, h2]
      rw [he, List.map_cons, List.map_cons]
      exact List.Sublist.cons₂ _ ih

theorem sorted_perm_valid (l : List (ℕ × Option ℚ)) :
    List.Perm (TercileCalculator.sortedIntensitiesOf l)
      (TercileCalculator.validIntensitiesOf l) :=
  List.perm_insertionSort _ _

theorem sorted_keys_nodup (l : List (ℕ × Option ℚ))
    (hnd : (l.map Prod.fst).Nodup) :
    ((TercileCalculator.sortedIntensitiesOf l).map Prod.fst).Nodup := by
  have h1 : ((TercileCalculator.validIntensitiesOf l).map Prod.fst).Nodup :=
    hnd.sublist (valid_keys_sublist l)
  exact (((sorted_perm_valid l).map Prod.fst).nodup_iff).mpr h1

theorem keys_of_labelled (c : Option TercileCalculator.Tercile)
    (s : List (ℕ × ℚ)) :
    (s.map (fun it => (it.1, c))).map Prod.fst = s.map Prod.fst := by
  simp

theorem take_drop_decomp {α : Type} (s : List α) (k : ℕ)
    (hk : 2 * k ≤ s.length) :
    s = s.take k ++ ((s.drop k).take (s.length - k - k) ++
      s.drop (s.length - k)) := by
  conv_lhs => rw [← List.take_append_drop k s]
  congr 1
  conv_lhs => rw [← List.take_append_drop (s.length - k - k) (s.drop k)]
  congr 1
  rw [List.drop_drop]
  congr 1
  omega

theorem three_segment_perm {α : Type} (s : List α) (k : ℕ)
    (hk : 2 * k ≤ s.length) :
    List.Perm (s.take k ++ s.drop (s.length - k) ++
      (s.drop k).take (s.length - k - k)) s := by
  have h1 : s.take k ++ s.drop (s.length - k) ++
      (s.drop k).take (s.length - k - k) =
      s.take k ++ (s.drop (s.length - k) ++
        (s.drop k).take (s.length - k - k)) := List.append_assoc ..
  have h2 : List.Perm (s.take k ++ (s.drop (s.length - k) ++
      (s.drop k).take (s.length - k - k)))
      (s.take k ++ ((s.drop k).take (s.length - k - k) ++
        s.drop (s.length - k))) :=
    List.Perm.append_left _ List.perm_append_comm
  rw [h1]
  conv_rhs => rw [take_drop_decomp s k hk]
  exact h2

theorem assigned_keys_perm (l : List (ℕ × Option ℚ)) :
    List.Perm ((TercileCalculator.assignedOf l).map Prod.fst)
      ((TercileCalculator.sortedIntensitiesOf l).map Prod.fst) := by
  have hk : 2 * TercileCalculator.tercileSizeOf l ≤
      ((TercileCalculator.sortedIntensitiesOf l).map Prod.fst).length := by
    rw [List.length_map]
    unfold TercileCalculator.tercileSizeOf
    omega
  have hlen : (TercileCalculator.sortedIntensitiesOf l).length =
      ((TercileCalculator.sortedIntensitiesOf l).map Prod.fst).length :=
    (List.length_map _ _).symm
  unfold TercileCalculator.assignedOf
  rw [List.map_append, List.map_append, keys_of_labelled, keys_of_labelled,
    keys_of_labelled, List.map_take, List.map_drop, List.map_take,
    List.map_drop, hlen]
  exact three_segment_perm _ _ hk

/-- Claim C4: `assignTerciles` sorts the valid entries ascending by
intensity, labels the first `floor(m/3)` "bottom", the last
`floor(m/3)` "top", every other valid entry "middle", and gives a null
assignment to every entry whose intensity is null; every company id
receives exactly one assignment (the lookup is always defined).  Stated
for inputs whose company ids are distinct, as in the callers. -/
theorem claim_C4 (intensities : List (ℕ × Option ℚ))
    (hnd : (intensities.map Prod.fst).Nodup) :
    (∀ i : ℕ, ∀ hi : i < (TercileCalculator.sortedIntensitiesOf intensities).length,
      mapGet (TercileCalculator.assignTerciles intensities)
        ((TercileCalculator.sortedIntensitiesOf intensities)[i]).1 =
        some (some (if i < TercileCalculator.tercileSizeOf intensities then
            TercileCalculator.Tercile.bottom
          else if (TercileCalculator.sortedIntensitiesOf intensities).length -
              TercileCalculator.tercileSizeOf intensities ≤ i then
            TercileCalculator.Tercile.top
          else TercileCalculator.Tercile.middle))) ∧
    (∀ item ∈ intensities, item.2 = none →
      mapGet (TercileCalculator.assignTerciles intensities) item.1 =
        some none) ∧
    (∀ item ∈ intensities,
      (mapGet (TercileCalculator.assignTerciles intensities) item.1).isSome) := by
  have ndsorted := sorted_keys_nodup intensities hnd
  have hperm := assigned_keys_perm intensities
  have ndassigned :
      ((TercileCalculator.assignedOf intensities).map Prod.fst).Nodup :=
    hperm.nodup_iff.mpr ndsorted
  have hlenvs : (TercileCalculator.sortedIntensitiesOf intensities).length =
      (TercileCalculator.validIntensitiesOf intensities).length := by
    unfold TercileCalculator.sortedIntensitiesOf
    exact List.length_insertionSort _ _
  have part1 : ∀ i : ℕ,
      ∀ hi : i < (TercileCalculator.sortedIntensitiesOf intensities).length,
      mapGet (TercileCalculator.assignTerciles intensities)
        ((TercileCalculator.sortedIntensitiesOf intensities)[i]).1 =
        some (some (if i < TercileCalculator.tercileSizeOf intensities then
            TercileCalculator.Tercile.bottom
          else if (TercileCalculator.sortedIntensitiesOf intensities).length -
              TercileCalculator.tercileSizeOf intensities ≤ i then
            TercileCalculator.Tercile.top
          else TercileCalculator.Tercile.middle)) := by
    intro i hi
    have hvne : ¬ (TercileCalculator.validIntensitiesOf intensities).length = 0 := by
      omega
    have hk3 : TercileCalculator.tercileSizeOf intensities =
        (TercileCalculator.sortedIntensitiesOf intensities).length / 3 := rfl
    rw [TercileCalculator.assignTerciles_eq_of_valid_ne _ hvne]
    by_cases hb : i < TercileCalculator.tercileSizeOf intensities
    · have hmem : (((TercileCalculator.sortedIntensitiesOf intensities)[i]).1,
          some TercileCalculator.Tercile.bottom) ∈
          TercileCalculator.assignedOf intensities := by
        unfold TercileCalculator.assignedOf
        refine List.mem_append.mpr (Or.inl (List.mem_append.mpr (Or.inl ?_)))
        exact List.mem_map.mpr
          ⟨(TercileCalculator.sortedIntensitiesOf intensities)[i],
            getElem_mem_take _ _ _ hi hb, rfl⟩
      have hkeymem : ((TercileCalculator.sortedIntensitiesOf intensities)[i]).1 ∈
          (TercileCalculator.assignedOf intensities).map Prod.fst :=
        List.mem_map.mpr ⟨_, hmem, rfl⟩
      rw [tercile_fold_get_mem _ _ _ hkeymem,
        mapGet_eq_some_of_mem_nodup hmem ndassigned, if_pos hb]
    · by_cases ht : (TercileCalculator.sortedIntensitiesOf intensities).length -
          TercileCalculator.tercileSizeOf intensities ≤ i
      · have hmem : (((TercileCalculator.sortedIntensitiesOf intensities)[i]).1,
            some TercileCalculator.Tercile.top) ∈
            TercileCalculator.assignedOf intensities := by
          unfold TercileCalculator.assignedOf
          refine List.mem_append.mpr (Or.inl (List.mem_append.mpr (Or.inr ?_)))
          exact List.mem_map.mpr
            ⟨(TercileCalculator.sortedIntensitiesOf intensities)[i],
              getElem_mem_drop _ _ _ hi ht, rfl⟩
        have hkeymem : ((TercileCalculator.sortedIntensitiesOf intensities)[i]).1 ∈
            (TercileCalculator.assignedOf intensities).map Prod.fst :=
          List.mem_map.mpr ⟨_, hmem, rfl⟩
        rw [tercile_fold_get_mem _ _ _ hkeymem,
          mapGet_eq_some_of_mem_nodup hmem ndassigned, if_neg hb, if_pos ht]
      · have hmem : (((TercileCalculator.sortedIntensitiesOf intensities)[i]).1,
            some TercileCalculator.Tercile.middle) ∈
            TercileCalculator.assignedOf intensities := by
          unfold TercileCalculator.assignedOf
          refine List.mem_append.mpr (Or.inr ?_)
          exact List.mem_map.mpr
            ⟨(TercileCalculator.sortedIntensitiesOf intensities)[i],
              getElem_mem_drop_take _ _ _ _ hi (by omega) (by omega), rfl⟩
        have hkeymem : ((TercileCalculator.sortedIntensitiesOf intensities)[i]).1 ∈
            (TercileCalculator.assignedOf intensities).map Prod.fst :=
          List.mem_map.mpr ⟨_, hmem, rfl⟩
        rw [tercile_fold_get_mem _ _ _ hkeymem,
          mapGet_eq_some_of_mem_nodup hmem ndassigned, if_neg hb, if_neg ht]
  have part2 : ∀ item ∈ intensities, item.2 = none →
      mapGet (TercileCalculator.assignTerciles intensities) item.1 =
        some none := by
    intro item hitem hnone
    by_cases hv : (TercileCalculator.validIntensitiesOf intensities).length = 0
    · rw [TercileCalculator.assignTerciles_eq_of_valid_eq _ hv]
      apply mapGet_eq_some_of_mem_nodup
      · exact List.mem_map.mpr ⟨item, hitem, rfl⟩
      · have he : (intensities.map
            (fun it => (it.1, (none : Option TercileCalculator.Tercile)))).map
              Prod.fst = intensities.map Prod.fst := by simp
        rw [he]
        exact hnd
    · rw [TercileCalculator.assignTerciles_eq_of_valid_ne _ hv]
      have hknot : item.1 ∉
          (TercileCalculator.assignedOf intensities).map Prod.fst := by
        intro hcon
        have h2 : item.1 ∈
            (TercileCalculator.sortedIntensitiesOf intensities).map Prod.fst :=
          hperm.mem_iff.mp hcon
        have h3 : item.1 ∈
            (TercileCalculator.validIntensitiesOf intensities).map Prod.fst :=
          ((sorted_perm_valid intensities).map Prod.fst).mem_iff.mp h2
        obtain ⟨pair, hpairmem, hpairfst⟩ := List.mem_map.mp h3
        obtain ⟨a, hamem, hfa⟩ := List.mem_filterMap.mp hpairmem
        cases ha2 : a.2 with
        | none =>
          rw [ha2] at hfa
          exact Option.noConfusion hfa
        | some q =>
          rw [ha2] at hfa
          injection hfa with hfa
          have hfst : a.1 = item.1 := by rw [← hpairfst, ← hfa]
          have hai : a = item := eq_of_mem_of_nodup_keys hnd hamem hitem hfst
          rw [hai, hnone] at ha2
          exact Option.noConfusion ha2
      exact tercile_fold_get_new _ _ _ hknot
        (List.mem_map.mpr ⟨item, hitem, rfl⟩)
  refine ⟨part1, part2, ?_⟩
  intro item hitem
  cases h2 : item.2 with
  | none =>
    rw [part2 item hitem h2]
    rfl
  | some q =>
    have hvmem : (item.1, q) ∈ TercileCalculator.validIntensitiesOf intensities :=
      List.mem_filterMap.mpr ⟨item, hitem, by rw [h2]; rfl⟩
    have hv : ¬ (TercileCalculator.validIntensitiesOf intensities).length = 0 := by
      intro h0
      rw [List.length_eq_zero] at h0
      rw [h0] at hvmem
      cases hvmem
    rw [TercileCalculator.assignTerciles_eq_of_valid_ne _ hv]
    have hkey : item.1 ∈
        (TercileCalculator.assignedOf intensities).map Prod.fst := by
      apply hperm.mem_iff.mpr
      apply ((sorted_perm_valid intensities).map Prod.fst).mem_iff.mpr
      exact List.mem_map.mpr ⟨(item.1, q), hvmem, rfl⟩
    rw [tercile_fold_get_mem _ _ _ hkey]
    exact mapGet_isSome_of_mem_keys hkey

/-- Nine companies with distinct valid intensities, ascending. -/
def ex9 : List (ℕ × Option ℚ) :=
  [(1, some 10), (2, some 20), (3, some 30), (4, some 40), (5, some 50),
   (6, some 60), (7, some 70), (8, some 80), (9, some 90)]

/-- Witness for C4: on nine companies with valid intensities, exactly
the first three are "bottom", the middle three "middle", the last
three "top" — no overlaps, no omissions. -/
theorem claim_C4_witness :
    mapGet (TercileCalculator.assignTerciles ex9) 1 =
      some (some TercileCalculator.Tercile.bottom) ∧
    mapGet (TercileCalculator.assignTerciles ex9) 2 =
      some (some TercileCalculator.Tercile.bottom) ∧
    mapGet (TercileCalculator.assignTerciles ex9) 3 =
      some (some TercileCalculator.Tercile.bottom) ∧
    mapGet (TercileCalculator.assignTerciles ex9) 4 =
      some (some TercileCalculator.Tercile.middle) ∧
    mapGet (TercileCalculator.assignTerciles ex9) 5 =
      some (some TercileCalculator.Tercile.middle) ∧
    mapGet (TercileCalculator.assignTerciles ex9) 6 =
      some (some TercileCalculator.Tercile.middle) ∧
    mapGet (TercileCalculator.assignTerciles ex9) 7 =
      some (some TercileCalculator.Tercile.top) ∧
    mapGet (TercileCalculator.assignTerciles ex9) 8 =
      some (some TercileCalculator.Tercile.top) ∧
    mapGet (TercileCalculator.assignTerciles ex9) 9 =
      some (some TercileCalculator.Tercile.top) := by
  have h := claim_C4 ex9 (by decide)
  exact ⟨h.1 0 (by decide), h.1 1 (by decide), h.1 2 (by decide),
    h.1 3 (by decide), h.1 4 (by decide), h.1 5 (by decide),
    h.1 6 (by decide), h.1 7 (by decide), h.1 8 (by decide)⟩

/-- Claim C7, evaluated at the failing input: the empty input maps to
the empty output and length is always preserved, but a single-element
input winsorized at percentile 5 comes back as `[NaN]` (the upper-bound
index is `floor(1·95/100) - 1 = -1`, so the bound is `undefined`), not
unchanged as the claim states. -/
theorem claim_C7_code_eval :
    CarbonPriceCalculator.winsorizeArray [(42 : ℚ)] 5 = [none] ∧
    CarbonPriceCalculator.winsorizeArray ([] : List ℚ) 5 = [] ∧
    (∀ (values : List ℚ) (p : ℚ),
      (CarbonPriceCalculator.winsorizeArray values p).length =
        values.length) := by
  refine ⟨?_, rfl, ?_⟩
  · rw [winsorizeArray_eval _ 5 0 0 (by norm_num) (by norm_num) (by norm_num)]
    decide
  · intro values p
    unfold CarbonPriceCalculator.winsorizeArray
    split
    · rename_i h
      simp [h]
    · rw [List.length_map]

/-- The worked-example top-tercile row: market cap $100,000M, net
profit $5,000M, emissions 10,000 tCO2. -/
def topRow : TimeSeries :=
  { companyId := 1, date := 0, totalReturnIndex := none,
    marketCap := some 100000, priceEarnings := none,
    scope1Emissions := some 10000, scope2Emissions := none,
    scope3Emissions := none, netProfit := some 5000 }

/-- The worked-example bottom-tercile row: market cap $120,000M, net
profit $5,000M. -/
def bottomRow : TimeSeries :=
  { companyId := 2, date := 0, totalReturnIndex := none,
    marketCap := some 120000, priceEarnings := none,
    scope1Emissions := some 0, scope2Emissions := none,
    scope3Emissions := none, netProfit := some 5000 }

/-- The per-date result the total-based engine produces on the worked
inputs. -/
def workedResult : CarbonPriceCalculator.CarbonPriceResult :=
  { topTercileEmissions := some 10000
    topTercileProfit := some 5000
    topTercileMarketCap := some 100000
    topTercilePeRatio := some 20
    topTercileCompanyCount := 1
    bottomTercileEmissions := some 0
    bottomTercileProfit := some 5000
    bottomTercileMarketCap := some 120000
    bottomTercilePeRatio := some 24
    bottomTercileCompanyCount := 1
    impliedCarbonPrice := some (250000 / 3) }

/-- Claim C3: in the total-based carbon price engine each group's
aggregate P/E is `totalMarketCap / totalProfit` (0 when total profit is
not positive) and the implied carbon price is
`((topProfit - topMarketCap / bottomPE) / topEmissions) · 1e6` when
`bottomPE > 0` and `topEmissions > 0`, else 0; on the worked inputs the
bottom P/E is 24, the implied target profit 12500/3 ≈ 4166.67, the
profit difference 2500/3 ≈ 833.33, and the implied carbon price
250000/3 ≈ 83,333 $/tCO2. -/
theorem claim_C3 :
    (∀ (topTs bottomTs : List TimeSeries) (inc w : Bool) (p : ℚ)
      (r : CarbonPriceCalculator.CarbonPriceResult),
      CarbonPriceCalculator.computeDateCarbonPrice topTs bottomTs inc w p =
        some r →
      (r.topTercilePeRatio =
        if jsGtB r.topTercileProfit (some 0) then
          jsDiv r.topTercileMarketCap r.topTercileProfit
        else some 0) ∧
      (r.bottomTercilePeRatio =
        if jsGtB r.bottomTercileProfit (some 0) then
          jsDiv r.bottomTercileMarketCap r.bottomTercileProfit
        else some 0) ∧
      (r.impliedCarbonPrice =
        if jsGtB r.bottomTercilePeRatio (some 0) ∧
            jsGtB r.topTercileEmissions (some 0) then
          jsMul (jsDiv (jsSub r.topTercileProfit
              (jsDiv r.topTercileMarketCap r.bottomTercilePeRatio))
            r.topTercileEmissions) (some 1000000)
        else some 0)) ∧
    (∃ r : CarbonPriceCalculator.CarbonPriceResult,
      CarbonPriceCalculator.computeDateCarbonPrice [topRow] [bottomRow]
        false false 5 = some r ∧
      r.bottomTercilePeRatio = some 24 ∧
      r.topTercileMarketCap = some 100000 ∧
      r.topTercileProfit = some 5000 ∧
      r.topTercileEmissions = some 10000 ∧
      jsDiv r.topTercileMarketCap r.bottomTercilePeRatio =
        some (12500 / 3) ∧
      jsSub r.topTercileProfit
        (jsDiv r.topTercileMarketCap r.bottomTercilePeRatio) =
        some (2500 / 3) ∧
      r.impliedCarbonPrice = some (250000 / 3)) := by
  constructor
  · intro topTs bottomTs inc w p r h
    simp only [CarbonPriceCalculator.computeDateCarbonPrice] at h
    split at h
    · exact absurd h (by simp)
    · split at h
      · exact absurd h (by simp)
      · injection h with h
        subst h
        exact ⟨rfl, rfl, rfl⟩
  · refine ⟨workedResult, ?_, rfl, rfl, rfl, rfl, ?_, ?_, rfl⟩
    · simp [CarbonPriceCalculator.computeDateCarbonPrice,
        CarbonPriceCalculator.aggregateGroup, CarbonPriceCalculator.isValidTs,
        CarbonPriceCalculator.tsEmissions, topRow, bottomRow, workedResult,
        jsSum, jsAdd, jsDiv, jsSub, jsMul, jsGtB]
      norm_num
    · simp only [workedResult, jsDiv]
      norm_num
    · simp only [workedResult, jsDiv, jsSub]
      norm_num

/-- Witness for C3: the general formula component applied to the
worked inputs. -/
theorem claim_C3_witness :
    ∃ r : CarbonPriceCalculator.CarbonPriceResult,
      CarbonPriceCalculator.computeDateCarbonPrice [topRow] [bottomRow]
        false false 5 = some r ∧
      r.impliedCarbonPrice =
        if jsGtB r.bottomTercilePeRatio (some 0) ∧
            jsGtB r.topTercileEmissions (some 0) then
          jsMul (jsDiv (jsSub r.topTercileProfit
              (jsDiv r.topTercileMarketCap r.bottomTercilePeRatio))
            r.topTercileEmissions) (some 1000000)
        else some 0 := by
  obtain ⟨r, hr, _⟩ := claim_C3.2
  exact ⟨r, hr, (claim_C3.1 _ _ _ _ _ r hr).2.2⟩

namespace PortfolioAnalyzerV2

/-- The geography-filtered companies of
`classifyCompaniesSectorRelative`. -/
def filteredOf (companiesWithData : List CompanyWithTimeSeries)
    (geography : Option String) : List CompanyWithTimeSeries :=
  match geography with
  | none => companiesWithData
  | some g =>
    companiesWithData.filter
      (fun c => mapGeographyToRegion c.company.geography = g)

/-- The sector keys of `classifyCompaniesSectorRelative`, in
first-insertion order. -/
def sectorKeysOf (companiesWithData : List CompanyWithTimeSeries)
    (parameters : AnalysisParameters) (geography : Option String) :
    List String :=
  dedupKeepFirst ((filteredOf companiesWithData geography).filterMap (fun c =>
    let v := sectorFieldValue parameters.sectorGranularity c.company
    if isFalsyStr v then none else v))

/-- The per-sector groups of `classifyCompaniesSectorRelative`. -/
def groupsOf (companiesWithData : List CompanyWithTimeSeries)
    (parameters : AnalysisParameters) (geography : Option String) :
    List (List CompanyWithTimeSeries) :=
  (sectorKeysOf companiesWithData parameters geography).map (fun k =>
    (filteredOf companiesWithData geography).filter (fun c =>
      sectorFieldValue parameters.sectorGranularity c.company = some k))

theorem classify_eq (companiesWithData : List CompanyWithTimeSeries)
    (date : ℤ) (parameters : AnalysisParameters)
    (geography : Option String) :
    classifyCompaniesSectorRelative companiesWithData date parameters
      geography =
      { lowCarbon := ((groupsOf companiesWithData parameters geography).map
          (lowCarbonOfSector date parameters)).flatten
        decarbonizing := ((groupsOf companiesWithData parameters
          geography).map decarbonizingOfSector).flatten
        solutions := ((groupsOf companiesWithData parameters geography).map
          solutionsOfSector).flatten
        baseline := (filteredOf companiesWithData geography).filterMap
          (fun c =>
            if c.company.id ≠ 0 ∧ c.company.id ∉
                (((groupsOf companiesWithData parameters geography).map
                    (lowCarbonOfSector date parameters)).flatten ++
                  ((groupsOf companiesWithData parameters geography).map
                    decarbonizingOfSector).flatten ++
                  ((groupsOf companiesWithData parameters geography).map
                    solutionsOfSector).flatten) then
              some c.company.id
            else none) } := rfl

end PortfolioAnalyzerV2

theorem dedupKeepFirst_subset {x : String} :
    ∀ (l : List String), x ∈ PortfolioAnalyzerV2.dedupKeepFirst l → x ∈ l := by
  have key : ∀ (l acc : List String),
      x ∈ l.foldl (fun acc x => if x ∈ acc then acc else acc ++ [x]) acc →
      x ∈ acc ∨ x ∈ l := by
    intro l
    induction l with
    | nil => intro acc h; exact Or.inl h
    | cons hd tl ih =>
      intro acc h
      rw [List.foldl_cons] at h
      rcases ih _ h with h1 | h1
      · by_cases hmem : hd ∈ acc
        · rw [if_pos hmem] at h1
          exact Or.inl h1
        · rw [if_neg hmem] at h1
          rcases List.mem_append.mp h1 with h2 | h2
          · exact Or.inl h2
          · simp at h2
            exact Or.inr (List.mem_cons.mpr (Or.inl h2))
      · exact Or.inr (List.mem_cons.mpr (Or.inr h1))
  intro l h
  rcases key l [] h with h1 | h1
  · cases h1
  · exact h1

theorem mem_lowCarbonOfSector {date : ℤ}
    {parameters : PortfolioAnalyzerV2.AnalysisParameters}
    {sc : List CompanyWithTimeSeries} {y : ℕ}
    (hy : y ∈ PortfolioAnalyzerV2.lowCarbonOfSector date parameters sc) :
    ∃ d ∈ sc, d.company.id = y ∧ d.company.id ≠ 0 := by
  simp only [PortfolioAnalyzerV2.lowCarbonOfSector] at hy
  obtain ⟨pair, hpair, rfl⟩ := List.mem_map.mp hy
  have h1 := List.mem_of_mem_take hpair
  rw [List.mem_insertionSort _] at h1
  obtain ⟨cwts, hcwts, hf⟩ := List.mem_filterMap.mp h1
  split at hf
  · exact Option.noConfusion hf
  · split at hf
    · exact Option.noConfusion hf
    · rename_i hid
      split at hf
      · exact Option.noConfusion hf
      · injection hf with hf
        refine ⟨cwts, hcwts, ?_, hid⟩
        rw [← hf]

theorem mem_decarbonizingOfSector {sc : List CompanyWithTimeSeries} {y : ℕ}
    (hy : y ∈ PortfolioAnalyzerV2.decarbonizingOfSector sc) :
    ∃ d ∈ sc, d.company.id = y ∧ d.company.id ≠ 0 := by
  simp only [PortfolioAnalyzerV2.decarbonizingOfSector] at hy
  obtain ⟨pair, hpair, rfl⟩ := List.mem_map.mp hy
  have h1 := List.mem_of_mem_take hpair
  rw [List.mem_insertionSort _] at h1
  obtain ⟨cwts, hcwts, hf⟩ := List.mem_filterMap.mp h1
  split at hf
  · exact Option.noConfusion hf
  · split at hf
    · exact Option.noConfusion hf
    · rename_i hid
      injection hf with hf
      refine ⟨cwts, hcwts, ?_, hid⟩
      rw [← hf]

theorem mem_solutionsOfSector {sc : List CompanyWithTimeSeries} {y : ℕ}
    (hy : y ∈ PortfolioAnalyzerV2.solutionsOfSector sc) :
    ∃ d ∈ sc, d.company.id = y ∧ d.company.id ≠ 0 := by
  simp only [PortfolioAnalyzerV2.solutionsOfSector] at hy
  obtain ⟨pair, hpair, rfl⟩ := List.mem_map.mp hy
  have h1 := List.mem_of_mem_take hpair
  rw [List.mem_insertionSort _] at h1
  obtain ⟨cwts, hcwts, hf⟩ := List.mem_filterMap.mp h1
  split at hf
  · exact Option.noConfusion hf
  · split at hf
    · exact Option.noConfusion hf
    · rename_i hid
      injection hf with hf
      refine ⟨cwts, hcwts, ?_, hid⟩
      rw [← hf]

theorem filteredOf_subset {companiesWithData : List CompanyWithTimeSeries}
    {geography : Option String} {d : CompanyWithTimeSeries}
    (hd : d ∈ PortfolioAnalyzerV2.filteredOf companiesWithData geography) :
    d ∈ companiesWithData := by
  cases geography with
  | none => exact hd
  | some g => exact List.mem_of_mem_filter hd

theorem mem_flatten_groups {companiesWithData : List CompanyWithTimeSeries}
    {parameters : PortfolioAnalyzerV2.AnalysisParameters}
    {geography : Option String}
    {F : List CompanyWithTimeSeries → List ℕ}
    (hF : ∀ sc (y : ℕ), y ∈ F sc → ∃ d ∈ sc, d.company.id = y ∧
      d.company.id ≠ 0)
    {x : ℕ}
    (hx : x ∈ ((PortfolioAnalyzerV2.groupsOf companiesWithData parameters
      geography).map F).flatten) :
    ∃ d ∈ PortfolioAnalyzerV2.filteredOf companiesWithData geography,
      d.company.id = x ∧ d.company.id ≠ 0 ∧
      PortfolioAnalyzerV2.isFalsyStr (PortfolioAnalyzerV2.sectorFieldValue
        parameters.sectorGranularity d.company) = false := by
  rw [List.mem_flatten] at hx
  obtain ⟨sub, hsub, hxsub⟩ := hx
  obtain ⟨g, hg, rfl⟩ := List.mem_map.mp hsub
  obtain ⟨k, hk, rfl⟩ := List.mem_map.mp hg
  obtain ⟨d, hd, hdid, hdnz⟩ := hF _ _ hxsub
  have hd' := List.mem_filter.mp hd
  refine ⟨d, hd'.1, hdid, hdnz, ?_⟩
  have hval : PortfolioAnalyzerV2.sectorFieldValue
      parameters.sectorGranularity d.company = some k :=
    of_decide_eq_true hd'.2
  have hkmem := dedupKeepFirst_subset _ hk
  obtain ⟨e, _, hfe⟩ := List.mem_filterMap.mp hkmem
  rw [hval]
  by_cases hfv : PortfolioAnalyzerV2.isFalsyStr
      (PortfolioAnalyzerV2.sectorFieldValue parameters.sectorGranularity
        e.company) = true
  · rw [if_pos hfv] at hfe
    exact Option.noConfusion hfe
  · rw [if_neg hfv] at hfe
    rw [hfe] at hfv
    simpa using hfv

/-- Claim C10: in `classifyCompaniesSectorRelative`, a company whose
configured grouping field (sector or industry) is null or empty is in
none of the three climate lists — stated for inputs where no other
record shares its id, as with database primary keys — and, when it has
a truthy id and passes the geography filter, it is always in the
baseline list. -/
theorem claim_C10 (companiesWithData : List CompanyWithTimeSeries)
    (date : ℤ) (parameters : PortfolioAnalyzerV2.AnalysisParameters)
    (geography : Option String) (c : CompanyWithTimeSeries)
    (hc : c ∈ companiesWithData)
    (hfalsy : PortfolioAnalyzerV2.isFalsyStr
      (PortfolioAnalyzerV2.sectorFieldValue parameters.sectorGranularity
        c.company) = true)
    (huniq : ∀ d ∈ companiesWithData, d.company.id = c.company.id →
      PortfolioAnalyzerV2.isFalsyStr (PortfolioAnalyzerV2.sectorFieldValue
        parameters.sectorGranularity d.company) = true) :
    (c.company.id ∉ (PortfolioAnalyzerV2.classifyCompaniesSectorRelative
        companiesWithData date parameters geography).lowCarbon ∧
      c.company.id ∉ (PortfolioAnalyzerV2.classifyCompaniesSectorRelative
        companiesWithData date parameters geography).decarbonizing ∧
      c.company.id ∉ (PortfolioAnalyzerV2.classifyCompaniesSectorRelative
        companiesWithData date parameters geography).solutions) ∧
    (c.company.id ≠ 0 →
      (∀ g, geography = some g →
        PortfolioAnalyzerV2.mapGeographyToRegion c.company.geography = g) →
      c.company.id ∈ (PortfolioAnalyzerV2.classifyCompaniesSectorRelative
        companiesWithData date parameters geography).baseline) := by
  rw [PortfolioAnalyzerV2.classify_eq]
  have hex : ∀ (F : List CompanyWithTimeSeries → List ℕ),
      (∀ sc (y : ℕ), y ∈ F sc → ∃ d ∈ sc, d.company.id = y ∧
        d.company.id ≠ 0) →
      c.company.id ∉ ((PortfolioAnalyzerV2.groupsOf companiesWithData
        parameters geography).map F).flatten := by
    intro F hF hmem
    obtain ⟨d, hdfil, hdid, _, hdfalse⟩ := mem_flatten_groups hF hmem
    rw [huniq d (filteredOf_subset hdfil) hdid] at hdfalse
    exact Bool.noConfusion hdfalse
  have hex1 := hex (PortfolioAnalyzerV2.lowCarbonOfSector date parameters)
    (fun sc y hy => @mem_lowCarbonOfSector date parameters sc y hy)
  have hex2 := hex PortfolioAnalyzerV2.decarbonizingOfSector
    (fun sc y hy => mem_decarbonizingOfSector hy)
  have hex3 := hex PortfolioAnalyzerV2.solutionsOfSector
    (fun sc y hy => mem_solutionsOfSector hy)
  refine ⟨⟨hex1, hex2, hex3⟩, ?_⟩
  intro hnz hgeo
  have hcf : c ∈ PortfolioAnalyzerV2.filteredOf companiesWithData geography := by
    cases geography with
    | none => exact hc
    | some g =>
      exact List.mem_filter.mpr ⟨hc, decide_eq_true (hgeo g rfl)⟩
  apply List.mem_filterMap.mpr
  refine ⟨c, hcf, ?_⟩
  rw [if_pos]
  refine ⟨hnz, ?_⟩
  intro hmem
  rcases List.mem_append.mp hmem with h12 | h3
  · rcases List.mem_append.mp h12 with h1 | h2
    · exact hex1 h1
    · exact hex2 h2
  · exact hex3 h3

/-- A company whose sector is null, for the C10 witness. -/
def exCompanyA : Company :=
  { id := 1, geography := some "US", sector := none, industry := none,
    sdgAlignmentScore := none, emissionTarget2050 := none }

/-- A classified companion company, for the C10 witness. -/
def exCompanyB : Company :=
  { id := 2, geography := some "DE", sector := some "Energy",
    industry := none, sdgAlignmentScore := some 2,
    emissionTarget2050 := some (-1 / 2) }

/-- The C10 witness dataset. -/
def exCwd : List CompanyWithTimeSeries :=
  [{ company := exCompanyA, timeSeries := [] },
   { company := exCompanyB, timeSeries := [] }]

/-- The C10 witness parameters. -/
def exParams : PortfolioAnalyzerV2.AnalysisParameters :=
  { includeScope3 := false,
    methodology := PortfolioAnalyzerV2.Methodology.relative,
    sectorGranularity := PortfolioAnalyzerV2.SectorGranularity.sector }

/-- Witness for C10: the sector-less company with id 1 lands in the
baseline and in none of the climate lists. -/
theorem claim_C10_witness :
    (1 ∉ (PortfolioAnalyzerV2.classifyCompaniesSectorRelative exCwd 0
        exParams none).lowCarbon ∧
      1 ∉ (PortfolioAnalyzerV2.classifyCompaniesSectorRelative exCwd 0
        exParams none).decarbonizing ∧
      1 ∉ (PortfolioAnalyzerV2.classifyCompaniesSectorRelative exCwd 0
        exParams none).solutions) ∧
    1 ∈ (PortfolioAnalyzerV2.classifyCompaniesSectorRelative exCwd 0
      exParams none).baseline := by
  have h := claim_C10 exCwd 0 exParams none
    { company := exCompanyA, timeSeries := [] }
    (List.mem_cons_self _ _) (by decide) (by decide)
  exact ⟨h.1, h.2 (by decide) (fun g hg => Option.noConfusion hg)⟩
